/-
Verification of the DADM agent core (behavioral analytics and secure
persistence pipeline) against its specification.

The Rust source is shallowly embedded:
  * machine integers become `Nat` / `Int`, `f32`/`f64` scores and feature
    values become `ℚ` (the code only adds, divides by constants, compares
    and clamps them);
  * the AES-256-GCM authenticated cipher (external `aes_gcm` crate) is
    modelled as an idealized authenticated encryption scheme: a keystream
    cipher plus a perfectly binding authentication tag over
    (key, nonce, ciphertext), matching the spec's description of
    authenticated encryption ("confidentiality and tamper detection via a
    per-message nonce and integrity tag").  The stored blob is modelled at
    the structured (post-base64) level `nonce ‖ ciphertext ‖ tag`;
  * Rust's `String::from_utf8` is modelled by a full executable UTF-8
    decoder (continuation-byte, overlong, surrogate and range checks), and
    `str::as_bytes` by the UTF-8 encoder;
  * the SQLite `events` table keyed by `id` becomes an association list
    with upsert semantics;
  * randomness (the per-call nonce) and external collaborators (collector,
    ONNX session, serde serialization) become explicit parameters.
-/
import Mathlib

/-! ## Idealized authenticated cipher (storage/encrypted.rs) -/

/-- Modelled from the spec: `derive_key` derives a fixed symmetric key
deterministically from `secret` via a one-way cryptographic hash (the
external `ring` SHA-256 digest).  The claims under verification depend only
on the derivation being a deterministic function of the secret, so the
digest itself is abstracted to an executable stand-in. -/
def derive_key (secret : List Nat) : List Nat :=
  secret

/-- One keystream byte for position `i`, derived from key and nonce. -/
def ksByte (key nonce : List Nat) (i : Nat) : Nat :=
  (key.sum + nonce.sum + i) % 256

/-- XOR a byte list against the keystream starting at position `i`
(self-inverse, as for the CTR keystream inside AES-GCM). -/
def xorStream (key nonce : List Nat) : Nat → List Nat → List Nat
  | _, [] => []
  | i, b :: rest => (b ^^^ ksByte key nonce i) :: xorStream key nonce (i + 1) rest

/-- The stored encrypted blob: `nonce ‖ ciphertext ‖ tag`.  The
authentication tag of the idealized cipher is perfectly binding: it
determines the key, nonce and ciphertext it authenticates. -/
structure EncBlob where
  nonce : List Nat
  ct : List Nat
  tag : List Nat × List Nat × List Nat
  deriving DecidableEq, Repr

/-- The `encrypt` helper of `storage/encrypted.rs`: encrypt `plaintext`
under `key` with the freshly generated random `nonce` (randomness is an
explicit argument here) and append the authentication tag. -/
def encrypt (key nonce plaintext : List Nat) : EncBlob :=
  let ct := xorStream key nonce 0 plaintext
  ⟨nonce, ct, (key, nonce, ct)⟩

/-- The `decrypt` helper of `storage/encrypted.rs`: check the
authentication tag, then invert the keystream; reject with an error when
authentication fails. -/
def decrypt (key : List Nat) (b : EncBlob) : Except String (List Nat) :=
  if b.tag = (key, b.nonce, b.ct) then
    Except.ok (xorStream key b.nonce 0 b.ct)
  else
    Except.error "authentication failed"

/-! ## UTF-8 (model of `str::as_bytes` and `String::from_utf8`) -/

/-- Whether a byte is a UTF-8 continuation byte (`10xxxxxx`). -/
def isCont (b : Nat) : Bool :=
  128 ≤ b && b < 192

/-- UTF-8 encoding of one unicode scalar value (1 to 4 bytes). -/
def utf8EncodeChar (c : Char) : List Nat :=
  let n := c.toNat
  if n < 128 then [n]
  else if n < 2048 then [192 + n / 64, 128 + n % 64]
  else if n < 65536 then [224 + n / 4096, 128 + (n / 64) % 64, 128 + n % 64]
  else [240 + n / 262144, 128 + (n / 4096) % 64, 128 + (n / 64) % 64, 128 + n % 64]

/-- UTF-8 encoding of a string, the model of `str::as_bytes`. -/
def utf8Encode (s : String) : List Nat :=
  (s.data.map utf8EncodeChar).flatten

/-- Decode one unicode scalar value from the front of a byte list, checking
continuation bytes, overlong encodings, surrogates and the codepoint range;
returns the scalar value and the remaining bytes. -/
def decodeOne : List Nat → Option (Nat × List Nat)
  | [] => none
  | b :: rest =>
    if b < 128 then some (b, rest)
    else if b < 194 then none
    else if b < 224 then
      match rest with
      | b2 :: r =>
        if isCont b2 then some ((b - 192) * 64 + (b2 - 128), r) else none
      | [] => none
    else if b < 240 then
      match rest with
      | b2 :: b3 :: r =>
        if isCont b2 && isCont b3 then
          let n := (b - 224) * 4096 + (b2 - 128) * 64 + (b3 - 128)
          if n < 2048 || (55296 ≤ n && n ≤ 57343) then none else some (n, r)
        else none
      | _ => none
    else if b < 245 then
      match rest with
      | b2 :: b3 :: b4 :: r =>
        if isCont b2 && isCont b3 && isCont b4 then
          let n := (b - 240) * 262144 + (b2 - 128) * 4096 + (b3 - 128) * 64 + (b4 - 128)
          if n < 65536 || 1114112 ≤ n then none else some (n, r)
        else none
      | _ => none
    else none

/-- Fuel-indexed UTF-8 decoder over a byte list, yielding scalar values. -/
def utf8DecodeAux : Nat → List Nat → Option (List Nat)
  | _, [] => some []
  | 0, _ :: _ => none
  | fuel + 1, b :: rest =>
    match decodeOne (b :: rest) with
    | none => none
    | some (n, r) => (utf8DecodeAux fuel r).map (n :: ·)

/-- Decode a byte list into the list of unicode scalar values, or `none`
when the bytes are not valid UTF-8. -/
def utf8DecodeList (l : List Nat) : Option (List Nat) :=
  utf8DecodeAux l.length l

/-- The model of `String::from_utf8`: decode bytes into a string, or `none`
when the bytes are not valid UTF-8. -/
def utf8Decode (l : List Nat) : Option String :=
  (utf8DecodeList l).map (fun ns => String.mk (ns.map Char.ofNat))

/-! ## SecureStore (storage/encrypted.rs) -/

/-- One row of the `events` table: plaintext `ts`, `kind` and `risk_score`
columns plus the encrypted payload blob. -/
structure StoredRow where
  ts : Int
  kind : String
  payload_enc : EncBlob
  risk_score : Option ℚ
  deriving DecidableEq, Repr

/-- The store: the derived key plus the `events` table keyed by `id`. -/
structure SecureStore where
  key : List Nat
  rows : List (String × StoredRow)
  deriving DecidableEq, Repr

/-- The model of `SecureStore::open`: create the empty schema and derive
the key from the secret (`open` is a Lean keyword, hence `openStore`). -/
def SecureStore.openStore (secret : List Nat) : SecureStore :=
  ⟨derive_key secret, []⟩

/-- `INSERT OR REPLACE` keyed by `id`: the new row fully replaces any
existing row with the same id. -/
def upsertRow (rows : List (String × StoredRow)) (id : String) (row : StoredRow) :
    List (String × StoredRow) :=
  (id, row) :: rows.filter (fun r => !(r.1 == id))

/-- `SecureStore::insert_event`: encrypt the payload under the store key
with the freshly generated random `nonce` (passed explicitly) and upsert
the row. -/
def SecureStore.insert_event (s : SecureStore) (id : String) (ts : Int) (kind : String)
    (payload_json : String) (nonce : List Nat) (risk_score : Option ℚ) : SecureStore :=
  let enc := encrypt s.key nonce (utf8Encode payload_json)
  ⟨s.key, upsertRow s.rows id ⟨ts, kind, enc, risk_score⟩⟩

/-- `SecureStore::get_event`: look the row up by id, decrypt the payload
(propagating a decryption error), and decode the plaintext bytes with
`String::from_utf8(plain).unwrap_or_default()`. -/
def SecureStore.get_event (s : SecureStore) (id : String) :
    Except String (Option (Int × String × Option ℚ)) :=
  match s.rows.find? (fun r => r.1 == id) with
  | none => Except.ok none
  | some (_, row) =>
    match decrypt s.key row.payload_enc with
    | Except.error e => Except.error e
    | Except.ok plain =>
        Except.ok (some (row.ts, (utf8Decode plain).getD "", row.risk_score))

/-! ## Events (collectors/mod.rs) -/

inductive FileIntegrityChange
  | Created
  | Modified
  | Deleted
  | Scanned
  deriving DecidableEq, Repr

structure ProcessEvent where
  pid : Nat
  ppid : Option Nat
  name : String
  exe : Option String
  cmdline : Option String
  uid : Option Nat
  started_at : Option Int
  deriving DecidableEq, Repr

structure NetworkEvent where
  local_addr : Option String
  local_port : Option Nat
  remote_addr : Option String
  remote_port : Option Nat
  protocol : String
  bytes_sent : Nat
  bytes_recv : Nat
  pid : Option Nat
  deriving DecidableEq, Repr

structure FileIntegrityEvent where
  path : String
  hash_sha256 : String
  size : Nat
  modified_ts : Option Int
  event : FileIntegrityChange
  deriving DecidableEq, Repr

structure PrivilegeEvent where
  pid : Nat
  from_uid : Nat
  to_uid : Option Nat
  success : Bool
  method : String
  deriving DecidableEq, Repr

inductive EventKind
  | Process (p : ProcessEvent)
  | Network (n : NetworkEvent)
  | FileIntegrity (f : FileIntegrityEvent)
  | Privilege (p : PrivilegeEvent)
  deriving DecidableEq, Repr

/-- Unified event from any collector; `ts` is the timestamp in
milliseconds and `metadata` an opaque optional value. -/
structure Event where
  id : String
  ts : Int
  kind : EventKind
  source : String
  metadata : Option String
  deriving DecidableEq, Repr

/-! ## Behavioral statistics (features/behavioral.rs) -/

structure BehavioralStats where
  process_count : Nat
  network_count : Nat
  file_count : Nat
  privilege_count : Nat
  unique_process_names : Nat
  avg_cmdline_len : ℚ
  total_bytes_sent : Nat
  total_bytes_recv : Nat
  unique_file_paths : Nat
  total_file_size : Nat
  privilege_success : Nat
  privilege_fail : Nat
  deriving DecidableEq, Repr

/-- Insert into a `HashSet` modelled as a duplicate-free list (only the
final cardinality of the set is ever used). -/
def insertSet (l : List String) (x : String) : List String :=
  if x ∈ l then l else x :: l

/-- Loop state of `BehavioralStats::from_events`: the partially built
stats plus the `cmdline_lens` vector and the two hash sets. -/
structure StatsAcc where
  s : BehavioralStats
  cmdline_lens : List Nat
  process_names : List String
  file_paths : List String

/-- One iteration of the `for e in events` loop of
`BehavioralStats::from_events`. -/
def statsStep (acc : StatsAcc) (e : Event) : StatsAcc :=
  match e.kind with
  | EventKind.Process p =>
      { acc with
        s := { acc.s with process_count := acc.s.process_count + 1 },
        process_names := insertSet acc.process_names p.name,
        cmdline_lens :=
          match p.cmdline with
          | some c => acc.cmdline_lens ++ [c.length]
          | none => acc.cmdline_lens }
  | EventKind.Network n =>
      { acc with
        s := { acc.s with
          network_count := acc.s.network_count + 1,
          total_bytes_sent := acc.s.total_bytes_sent + n.bytes_sent,
          total_bytes_recv := acc.s.total_bytes_recv + n.bytes_recv } }
  | EventKind.FileIntegrity f =>
      { acc with
        s := { acc.s with
          file_count := acc.s.file_count + 1,
          total_file_size := acc.s.total_file_size + f.size },
        file_paths := insertSet acc.file_paths f.path }
  | EventKind.Privilege p =>
      { acc with
        s := { acc.s with
          privilege_count := acc.s.privilege_count + 1,
          privilege_success := acc.s.privilege_success + (if p.success then 1 else 0),
          privilege_fail := acc.s.privilege_fail + (if p.success then 0 else 1) } }

/-- `BehavioralStats::from_events`: fold the loop over the events, then
fill in the cardinalities and the average command-line length. -/
def BehavioralStats.from_events (events : List Event) : BehavioralStats :=
  let acc := events.foldl statsStep ⟨⟨0, 0, 0, 0, 0, 0, 0, 0, 0, 0, 0, 0⟩, [], [], []⟩
  { acc.s with
    unique_process_names := acc.process_names.length,
    unique_file_paths := acc.file_paths.length,
    avg_cmdline_len :=
      if acc.cmdline_lens = [] then 0
      else (acc.cmdline_lens.sum : ℚ) / (acc.cmdline_lens.length : ℚ) }

/-- The `raw` vector of `BehavioralStats::to_vector`: the twelve encoded
statistics in source order, each divided by its scale constant, the three
byte totals clamped to at most 1. -/
def BehavioralStats.rawVector (s : BehavioralStats) : List ℚ :=
  [ (s.process_count : ℚ) / 1000,
    (s.network_count : ℚ) / 1000,
    (s.file_count : ℚ) / 1000,
    (s.privilege_count : ℚ) / 100,
    (s.unique_process_names : ℚ) / 500,
    s.avg_cmdline_len / 1000,
    min ((s.total_bytes_sent : ℚ) / 1000000000) 1,
    min ((s.total_bytes_recv : ℚ) / 1000000000) 1,
    (s.unique_file_paths : ℚ) / 1000,
    min ((s.total_file_size : ℚ) / 1000000000) 1,
    (s.privilege_success : ℚ) / 100,
    (s.privilege_fail : ℚ) / 100 ]

/-- `BehavioralStats::to_vector`: start from a zero vector of length `dim`
and copy the first `min raw.length dim` raw statistics into it. -/
def BehavioralStats.to_vector (s : BehavioralStats) (dim : Nat) : List ℚ :=
  let raw := s.rawVector
  let copy := min raw.length dim
  raw.take copy ++ List.replicate (dim - copy) 0

/-! ## Feature pipeline (features/pipeline.rs) -/

structure FeaturesConfig where
  window_events : Nat
  feature_dim : Nat
  deriving DecidableEq, Repr

structure FeatureVector where
  dim : Nat
  values : List ℚ
  event_id : String
  ts : Int
  deriving DecidableEq, Repr

/-- The `while w.len() > cap { w.pop_front(); }` loop: evict from the
front of the window until its length is within the capacity. -/
def evictFront (cap : Nat) : List Event → List Event
  | [] => []
  | e :: rest => if rest.length + 1 > cap then evictFront cap rest else e :: rest

/-- The `for e in events` loop of `FeatureExtractor::push`: push each
event to the back, then pop from the front while the length exceeds the
capacity. -/
def pushWindow (cap : Nat) (window events : List Event) : List Event :=
  events.foldl (fun w e => evictFront cap (w ++ [e])) window

/-- `FeatureExtractor::push` as a state-passing function: append each
event to the window (evicting from the front past capacity), then, when
the window is non-empty, emit one feature vector over the full window,
tagged with the id of the last window event and the current timestamp.
Returns the new window and the emitted vectors. -/
def FeatureExtractor.push (config : FeaturesConfig) (window : List Event)
    (events : List Event) (now : Int) : List Event × List FeatureVector :=
  let w := pushWindow config.window_events window events
  (w,
    if w.isEmpty then []
    else
      [⟨config.feature_dim,
        (BehavioralStats.from_events w).to_vector config.feature_dim,
        (w.getLast?.map Event.id).getD "", now⟩])

/-- `FeatureExtractor::flush`: read-only variant of the emission step. -/
def FeatureExtractor.flush (config : FeaturesConfig) (window : List Event)
    (now : Int) : Option FeatureVector :=
  let event_id := (window.getLast?.map Event.id).getD ""
  if window.isEmpty then none
  else
    let stats := BehavioralStats.from_events window
    some ⟨config.feature_dim, stats.to_vector config.feature_dim, event_id, now⟩

/-! ## Risk engine (risk/engine.rs) -/

structure RiskConfig where
  high_threshold : ℚ
  medium_threshold : ℚ
  deriving DecidableEq, Repr

inductive RiskLevel
  | Low
  | Medium
  | High
  deriving DecidableEq, Repr

/-- `RiskLevel::from_score`: compare the score against the two configured
thresholds, both inclusive lower bounds. -/
def RiskLevel.from_score (score : ℚ) (config : RiskConfig) : RiskLevel :=
  if score ≥ config.high_threshold then RiskLevel.High
  else if score ≥ config.medium_threshold then RiskLevel.Medium
  else RiskLevel.Low

/-- Numeric height of a risk level for the ordering Low < Medium < High. -/
def RiskLevel.toNat : RiskLevel → Nat
  | RiskLevel.Low => 0
  | RiskLevel.Medium => 1
  | RiskLevel.High => 2

structure RiskResult where
  event_id : String
  score : ℚ
  level : RiskLevel
  ts : Int
  deriving DecidableEq, Repr

structure RiskEngine where
  config : RiskConfig
  deriving DecidableEq, Repr

/-- `RiskEngine::score`: derive the level and pass `raw_score` through
unchanged into the result. -/
def RiskEngine.score (engine : RiskEngine) (event_id : String) (raw_score : ℚ)
    (ts : Int) : RiskResult :=
  ⟨event_id, raw_score, RiskLevel.from_score raw_score engine.config, ts⟩

/-! ## Detector (model/onnx.rs) -/

/-- `OnnxDetector`: the ONNX session is external, so it is abstracted to
an optional function from the feature vector to an optional raw output
(`none` standing for any of the run/extract failure branches, each of
which makes `predict` return `0.0`). -/
structure OnnxDetector where
  session : Option (FeatureVector → Option ℚ)
  feature_dim : Nat

/-- `OnnxDetector::predict`: `0.0` in no-op mode and on every failure
branch, otherwise the session output clamped to `[0, 1]`
(`score.clamp(0.0, 1.0)`). -/
def OnnxDetector.predict (d : OnnxDetector) (features : FeatureVector) : ℚ :=
  match d.session with
  | none => 0
  | some run =>
    match run features with
    | none => 0
    | some score => max 0 (min score 1)

/-! ## Cycle orchestrator (main.rs) -/

/-- The state produced by one cycle: the updated store and extractor
window, and the cycle's risk result. -/
structure CycleOutcome where
  store : SecureStore
  window : List Event
  result : RiskResult

/-- The persistence loop of `run_one_cycle`: insert every collected event,
tagged with the cycle's single risk score; `serialize` stands for
`serde_json::to_string` and `nonces` supplies the per-insert random
nonces. -/
def insertEvents (store : SecureStore) (events : List Event)
    (serialize : Event → String) (nonces : Nat → List Nat) (score : ℚ) : SecureStore :=
  (events.enum).foldl
    (fun st ie => st.insert_event ie.2.id ie.2.ts ie.2.source (serialize ie.2)
      (nonces ie.1) (some score))
    store

/-- `run_one_cycle` of `main.rs`: push the collected events through the
extractor, score the first feature vector (or default to `0.0` and an
empty event id when none was produced), persist every event with the
cycle's risk score, and return the outcome. -/
def run_one_cycle (config : FeaturesConfig) (engine : RiskEngine)
    (detector : OnnxDetector) (serialize : Event → String) (nonces : Nat → List Nat)
    (window : List Event) (store : SecureStore) (events : List Event) (now : Int) :
    Except String CycleOutcome :=
  let pushed := FeatureExtractor.push config window events now
  let feature_vectors := pushed.2
  let score := (feature_vectors.head?.map detector.predict).getD 0
  let result := (feature_vectors.head?.map
      (fun fv => engine.score fv.event_id score fv.ts)).getD (engine.score "" score 0)
  let store2 := insertEvents store events serialize nonces result.score
  Except.ok ⟨store2, pushed.1, result⟩

/-! ## Auxiliary notions and concrete instances used by the theorems -/

/-- The last (at most) `n` elements of a list, in order: the specification
shape of a FIFO-evicting bounded window. -/
def lastN (n : Nat) (l : List Event) : List Event :=
  l.drop (l.length - n)

/-- Fold `FeatureExtractor::push` over a sequence of event batches,
tracking only the window state. -/
def pushManyWindow (config : FeaturesConfig) (window : List Event)
    (batches : List (List Event)) : List Event :=
  batches.foldl (fun w es => (FeatureExtractor.push config w es 0).1) window

/-- The encoding order of `BehavioralStats::to_vector` as the specification
words it: the twelve statistics in the fixed order, counts divided by 1000,
privilege counts by 100, unique process names by 500, unique file paths by
1000, the average command-line length by 1000, and the byte totals divided
by `1e9` and clamped to at most `1.0`.  Written from the spec, to be
compared with the source-derived `BehavioralStats.rawVector`. -/
def specEncodingOrder (s : BehavioralStats) : List ℚ :=
  [ (s.process_count : ℚ) / 1000,
    (s.network_count : ℚ) / 1000,
    (s.file_count : ℚ) / 1000,
    (s.privilege_count : ℚ) / 100,
    (s.unique_process_names : ℚ) / 500,
    s.avg_cmdline_len / 1000,
    min ((s.total_bytes_sent : ℚ) / 10 ^ 9) 1,
    min ((s.total_bytes_recv : ℚ) / 10 ^ 9) 1,
    (s.unique_file_paths : ℚ) / 1000,
    min ((s.total_file_size : ℚ) / 10 ^ 9) 1,
    (s.privilege_success : ℚ) / 100,
    (s.privilege_fail : ℚ) / 100 ]

/-- Direct modification of the stored blob of one row, modelling an
attacker or fault corrupting the database outside the store's API. -/
def tamperBlob (s : SecureStore) (id : String) (blob : EncBlob) : SecureStore :=
  ⟨s.key, s.rows.map (fun r =>
    if r.1 == id then (r.1, { r.2 with payload_enc := blob }) else r)⟩

/-- A concrete secret for the storage examples. -/
def exSecret : List Nat :=
  [1, 2, 3]

/-- A store holding one authentic record, inserted through the API. -/
def exAuthentic : SecureStore :=
  (SecureStore.openStore exSecret).insert_event "e1" 5 "proc" "hi" [9, 9, 9] (some (1 / 2))

/-- A forged blob: a complete valid encryption, under the same store key,
of a different plaintext with a different nonce. -/
def exForgedBlob : EncBlob :=
  encrypt (derive_key exSecret) [7, 7, 7] (utf8Encode "hacked")

/-- The authentic store with its blob swapped for the forgery. -/
def exForgedStore : SecureStore :=
  tamperBlob exAuthentic "e1" exForgedBlob

/-- A corruption confined to the ciphertext component (one byte prepended,
tag and nonce untouched), breaking the authentication equation. -/
def exCorruptBlob : EncBlob :=
  let b := encrypt (derive_key exSecret) [9, 9, 9] (utf8Encode "hi")
  ⟨b.nonce, 0 :: b.ct, b.tag⟩

/-- The authentic store with the single-component corruption applied. -/
def exCorruptStore : SecureStore :=
  tamperBlob exAuthentic "e1" exCorruptBlob

/-- A concrete privilege event for the window examples. -/
def exEvent (name : String) : Event :=
  ⟨name, 0, EventKind.Privilege ⟨1, 0, none, true, "sudo"⟩, "privilege", none⟩

/-- A concrete statistics value whose process count overflows the scale. -/
def exStatsBig : BehavioralStats :=
  ⟨2000, 0, 0, 0, 0, 0, 0, 0, 0, 0, 0, 0⟩

/-- A concrete statistics value with a negative average command-line
length, exercising the absence of a lower clamp. -/
def exStatsNeg : BehavioralStats :=
  ⟨0, 0, 0, 0, 0, -1000, 0, 0, 0, 0, 0, 0⟩

/-! ## Library lemmas about the embedded definitions -/

theorem xorStream_xorStream (key nonce : List Nat) :
    ∀ (i : Nat) (l : List Nat),
      xorStream key nonce i (xorStream key nonce i l) = l := by
  intro i l
  induction l generalizing i with
  | nil => simp [xorStream]
  | cons b rest ih =>
      simp [xorStream, ih, Nat.xor_cancel_right]

theorem decrypt_encrypt (key nonce plaintext : List Nat) :
    decrypt key (encrypt key nonce plaintext) = Except.ok plaintext := by
  simp [decrypt, encrypt, xorStream_xorStream]

theorem decodeOne_length {l r : List Nat} {n : Nat}
    (h : decodeOne l = some (n, r)) : r.length < l.length := by
  match l with
  | [] => simp [decodeOne] at h
  | b :: rest =>
    unfold decodeOne at h
    repeat' split at h
    all_goals simp_all
    all_goals omega

theorem utf8EncodeChar_length_pos (c : Char) : 0 < (utf8EncodeChar c).length := by
  simp only [utf8EncodeChar]
  split_ifs <;> simp

theorem char_toNat_valid (c : Char) :
    c.toNat < 55296 ∨ (57343 < c.toNat ∧ c.toNat < 1114112) :=
  c.valid

theorem decodeOne_utf8EncodeChar (c : Char) (rest : List Nat) :
    decodeOne (utf8EncodeChar c ++ rest) = some (c.toNat, rest) := by
  have hv := char_toNat_valid c
  unfold utf8EncodeChar
  by_cases h1 : c.toNat < 128
  · simp only [if_pos h1, List.cons_append, List.nil_append]
    simp only [decodeOne]
    simp [h1]
  · by_cases h2 : c.toNat < 2048
    · simp only [if_neg h1, if_pos h2, List.cons_append, List.nil_append]
      simp only [decodeOne]
      rw [if_neg (by omega), if_neg (by omega), if_pos (by omega)]
      rw [if_pos (by simp only [isCont, Bool.and_eq_true, decide_eq_true_eq]; omega)]
      simp only [Option.some.injEq, Prod.mk.injEq]
      exact ⟨by omega, trivial⟩
    · by_cases h3 : c.toNat < 65536
      · simp only [if_neg h1, if_neg h2, if_pos h3, List.cons_append, List.nil_append]
        simp only [decodeOne]
        rw [if_neg (by omega), if_neg (by omega), if_neg (by omega),
          if_pos (by omega)]
        rw [if_pos (by simp only [isCont, Bool.and_eq_true, decide_eq_true_eq]; omega)]
        rw [if_neg (by simp only [Bool.or_eq_true, Bool.and_eq_true,
          decide_eq_true_eq]; omega)]
        simp only [Option.some.injEq, Prod.mk.injEq]
        exact ⟨by omega, trivial⟩
      · simp only [if_neg h1, if_neg h2, if_neg h3, List.cons_append, List.nil_append]
        simp only [decodeOne]
        rw [if_neg (by omega), if_neg (by omega), if_neg (by omega),
          if_neg (by omega), if_pos (by omega)]
        rw [if_pos (by simp only [isCont, Bool.and_eq_true, decide_eq_true_eq]; omega)]
        rw [if_neg (by simp only [Bool.or_eq_true, Bool.and_eq_true,
          decide_eq_true_eq]; omega)]
        simp only [Option.some.injEq, Prod.mk.injEq]
        exact ⟨by omega, trivial⟩

theorem utf8DecodeAux_encode (cs : List Char) :
    ∀ (fuel : Nat), ((cs.map utf8EncodeChar).flatten).length ≤ fuel →
      utf8DecodeAux fuel ((cs.map utf8EncodeChar).flatten)
        = some (cs.map Char.toNat) := by
  induction cs with
  | nil => intro fuel _; simp [utf8DecodeAux]
  | cons c cs ih =>
      intro fuel hfuel
      have hpos := utf8EncodeChar_length_pos c
      have hbytes : (((c :: cs).map utf8EncodeChar).flatten)
          = utf8EncodeChar c ++ ((cs.map utf8EncodeChar).flatten) := by
        simp
      rw [hbytes] at hfuel ⊢
      obtain ⟨b, bs, hb⟩ : ∃ b bs, utf8EncodeChar c ++ ((cs.map utf8EncodeChar).flatten)
          = b :: bs := by
        cases henc : utf8EncodeChar c with
        | nil => rw [henc] at hpos; simp at hpos
        | cons x xs => exact ⟨x, xs ++ (cs.map utf8EncodeChar).flatten, by simp [henc]⟩
      obtain ⟨f, rfl⟩ : ∃ f, fuel = f + 1 := by
        rw [hb] at hfuel
        cases fuel with
        | zero => simp at hfuel
        | succ f => exact ⟨f, rfl⟩
      have hlen : ((cs.map utf8EncodeChar).flatten).length ≤ f := by
        have hap := List.length_append (utf8EncodeChar c) ((cs.map utf8EncodeChar).flatten)
        omega
      rw [hb]
      simp only [utf8DecodeAux]
      rw [← hb, decodeOne_utf8EncodeChar]
      simp [ih f hlen]

theorem utf8Decode_utf8Encode (s : String) :
    utf8Decode (utf8Encode s) = some s := by
  unfold utf8Decode utf8DecodeList utf8Encode
  rw [utf8DecodeAux_encode s.data _ (Nat.le_refl _)]
  simp only [Option.map, Option.some.injEq]
  rw [List.map_map]
  have hcomp : (Char.ofNat ∘ Char.toNat) = id := by
    funext c
    simp [Function.comp]
  rw [hcomp, List.map_id]

theorem evictFront_eq_drop (cap : Nat) (w : List Event) :
    evictFront cap w = w.drop (w.length - cap) := by
  induction w with
  | nil => simp [evictFront]
  | cons e rest ih =>
      simp only [evictFront, List.length_cons]
      by_cases h : rest.length + 1 > cap
      · rw [if_pos h, ih]
        have hc : rest.length + 1 - cap = (rest.length - cap) + 1 := by omega
        rw [hc, List.drop_succ_cons]
      · rw [if_neg h]
        have hc : rest.length + 1 - cap = 0 := by omega
        rw [hc, List.drop_zero]

theorem lastN_length_le (n : Nat) (l : List Event) : (lastN n l).length ≤ n := by
  simp only [lastN, List.length_drop]
  omega

theorem lastN_of_length_le {n : Nat} {l : List Event} (h : l.length ≤ n) :
    lastN n l = l := by
  have hz : l.length - n = 0 := by omega
  simp [lastN, hz]

theorem lastN_append_lastN (n : Nat) (l m : List Event) :
    lastN n (lastN n l ++ m) = lastN n (l ++ m) := by
  unfold lastN
  rw [List.length_append, List.length_drop, List.length_append]
  by_cases h : l.length ≤ n
  · have hz : l.length - n = 0 := by omega
    rw [hz, List.drop_zero]
    congr 1
  · have hk : l.length - n ≤ l.length := by omega
    rw [← List.drop_append_of_le_length hk, List.drop_drop]
    congr 1
    omega

theorem pushWindow_eq_lastN (cap : Nat) :
    ∀ (es w : List Event), w.length ≤ cap →
      pushWindow cap w es = lastN cap (w ++ es) := by
  intro es
  induction es with
  | nil =>
      intro w hw
      simpa [pushWindow] using (lastN_of_length_le hw).symm
  | cons e es ih =>
      intro w hw
      have hstep : evictFront cap (w ++ [e]) = lastN cap (w ++ [e]) := by
        rw [evictFront_eq_drop]
        rfl
      have hlen : (evictFront cap (w ++ [e])).length ≤ cap := by
        rw [hstep]
        exact lastN_length_le cap _
      have hfold : pushWindow cap w (e :: es)
          = pushWindow cap (evictFront cap (w ++ [e])) es := by
        simp [pushWindow]
      rw [hfold, ih _ hlen, hstep, lastN_append_lastN]
      congr 1
      simp

theorem push_window_eq (config : FeaturesConfig) (window events : List Event)
    (now : Int) :
    (FeatureExtractor.push config window events now).1
      = pushWindow config.window_events window events := by
  rfl

theorem pushManyWindow_eq (config : FeaturesConfig) :
    ∀ (batches : List (List Event)) (window : List Event),
      pushManyWindow config window batches
        = pushWindow config.window_events window batches.flatten := by
  intro batches
  induction batches with
  | nil => intro window; simp [pushManyWindow, pushWindow]
  | cons es batches ih =>
      intro window
      have h1 : pushManyWindow config window (es :: batches)
          = pushManyWindow config (FeatureExtractor.push config window es 0).1 batches := by
        simp [pushManyWindow]
      rw [h1, ih, push_window_eq]
      simp [pushWindow, List.foldl_append]

theorem rawVector_length (s : BehavioralStats) : s.rawVector.length = 12 :=
  rfl

theorem to_vector_length (s : BehavioralStats) (dim : Nat) :
    (s.to_vector dim).length = dim := by
  simp only [BehavioralStats.to_vector]
  rw [List.length_append, List.length_take, List.length_replicate, rawVector_length]
  omega

theorem to_vector_padding (s : BehavioralStats) (dim i : Nat) (h12 : 12 ≤ i)
    (hdim : i < dim) : (s.to_vector dim)[i]? = some 0 := by
  simp only [BehavioralStats.to_vector]
  have hmin : min s.rawVector.length dim = 12 := by
    rw [rawVector_length]; omega
  rw [hmin]
  have hlen : (s.rawVector.take 12).length = 12 := by
    rw [List.length_take, rawVector_length]
    omega
  rw [List.getElem?_append_right (by rw [hlen]; omega), hlen,
    List.getElem?_replicate]
  rw [if_pos (by omega)]

theorem to_vector_truncate (s : BehavioralStats) (dim : Nat) (h : dim ≤ 12) :
    s.to_vector dim = s.rawVector.take dim := by
  simp only [BehavioralStats.to_vector]
  have hmin : min s.rawVector.length dim = dim := by
    rw [rawVector_length]; omega
  rw [hmin]
  have hz : dim - dim = 0 := by omega
  rw [hz]
  simp

theorem to_vector_pad_full (s : BehavioralStats) (dim : Nat) (h : 12 ≤ dim) :
    s.to_vector dim = s.rawVector ++ List.replicate (dim - 12) 0 := by
  simp only [BehavioralStats.to_vector]
  have hmin : min s.rawVector.length dim = 12 := by
    rw [rawVector_length]; omega
  rw [hmin]
  congr 1

theorem predict_mem_unit (d : OnnxDetector) (fv : FeatureVector) :
    0 ≤ d.predict fv ∧ d.predict fv ≤ 1 := by
  unfold OnnxDetector.predict
  cases hs : d.session with
  | none => norm_num
  | some run =>
      cases hr : run fv with
      | none => simp [hr]
      | some q =>
          simp only [hr]
          refine ⟨le_max_left 0 _, max_le (by norm_num) (min_le_right q 1)⟩

/-! ## Claims -/

/-- C1: for every id, timestamp, kind, payload, per-call nonce and
optional risk score, a successful `SecureStore.insert_event` followed by
`get_event` for the same id on the same store returns
`some (ts, payload, score)` with all three components exactly as
inserted. -/
theorem c1_insert_get_roundtrip (s : SecureStore) (id : String) (ts : Int)
    (kind : String) (payload : String) (nonce : List Nat) (score : Option ℚ) :
    (s.insert_event id ts kind payload nonce score).get_event id
      = Except.ok (some (ts, payload, score)) := by
  unfold SecureStore.insert_event SecureStore.get_event upsertRow
  simp [List.find?_cons, decrypt_encrypt, utf8Decode_utf8Encode]

/-- C3: for every initial window whose length is at most the configured
capacity and every sequence of pushed batches, the window length after
the pushes never exceeds `window_events`, and the window is exactly the
trailing `window_events` elements of the initial window followed by all
pushed events in arrival order — strict FIFO eviction of the oldest
first.  Quantifying over all batch sequences covers the state after
every intermediate push as well. -/
theorem c3_window_bound_fifo (config : FeaturesConfig) (init : List Event)
    (batches : List (List Event)) (h : init.length ≤ config.window_events) :
    (pushManyWindow config init batches).length ≤ config.window_events ∧
    pushManyWindow config init batches
      = lastN config.window_events (init ++ batches.flatten) := by
  rw [pushManyWindow_eq, pushWindow_eq_lastN config.window_events batches.flatten init h]
  exact ⟨lastN_length_le _ _, rfl⟩

/-- Witness for C3 at capacity 2 with three pushed events: the window
keeps only the two most recent events, in order. -/
theorem c3_window_bound_fifo_witness :
    ([] : List Event).length ≤ 2 ∧
    ((pushManyWindow ⟨2, 12⟩ [] [[exEvent "e1"], [exEvent "e2", exEvent "e3"]]).length ≤ 2 ∧
      pushManyWindow ⟨2, 12⟩ [] [[exEvent "e1"], [exEvent "e2", exEvent "e3"]]
        = lastN 2 ([] ++ [[exEvent "e1"], [exEvent "e2", exEvent "e3"]].flatten)) ∧
    pushManyWindow ⟨2, 12⟩ [] [[exEvent "e1"], [exEvent "e2", exEvent "e3"]]
      = [exEvent "e2", exEvent "e3"] :=
  ⟨by decide,
    c3_window_bound_fifo ⟨2, 12⟩ [] [[exEvent "e1"], [exEvent "e2", exEvent "e3"]] (by decide),
    by decide⟩

/-- C4: `to_vector` always produces a vector of length exactly `dim` —
slots past the twelve encoded statistics are zero-filled, and when `dim`
is smaller the statistic list is truncated keeping the original order —
and consequently every `FeatureVector` emitted by `push` or `flush` has
`values` of length `feature_dim`. -/
theorem c4_vector_length_invariant :
    (∀ (s : BehavioralStats) (dim : Nat), (s.to_vector dim).length = dim) ∧
    (∀ (s : BehavioralStats) (dim i : Nat), 12 ≤ i → i < dim →
      (s.to_vector dim)[i]? = some 0) ∧
    (∀ (s : BehavioralStats) (dim : Nat), dim ≤ 12 →
      s.to_vector dim = s.rawVector.take dim) ∧
    (∀ (config : FeaturesConfig) (window events : List Event) (now : Int)
      (fv : FeatureVector),
      fv ∈ (FeatureExtractor.push config window events now).2 →
      fv.values.length = config.feature_dim) ∧
    (∀ (config : FeaturesConfig) (window : List Event) (now : Int)
      (fv : FeatureVector),
      FeatureExtractor.flush config window now = some fv →
      fv.values.length = config.feature_dim) := by
  refine ⟨to_vector_length, to_vector_padding, to_vector_truncate, ?_, ?_⟩
  · intro config window events now fv hmem
    simp only [FeatureExtractor.push] at hmem
    split at hmem
    · simp at hmem
    · rw [List.mem_singleton] at hmem
      subst hmem
      exact to_vector_length _ _
  · intro config window now fv hflush
    simp only [FeatureExtractor.flush] at hflush
    split at hflush
    · simp at hflush
    · rw [Option.some.injEq] at hflush
      subst hflush
      exact to_vector_length _ _

/-- Witness for C4: padding slot 13 of a 14-dimension vector is zero. -/
theorem c4_vector_length_invariant_witness :
    12 ≤ 13 ∧ 13 < 14 ∧ (exStatsBig.to_vector 14)[13]? = some 0 :=
  ⟨by decide, by decide,
    c4_vector_length_invariant.2.1 exStatsBig 14 13 (by decide) (by decide)⟩

/-- C5: the encoded statistics appear in exactly the specified order with
the specified scale divisors; the three byte-total slots are clamped to
at most 1; the other slots are not clamped above (a process count of 2000
encodes as 2) and no slot is clamped below 0 (a negative average
command-line length passes through). -/
theorem c5_encoding_order :
    (∀ s : BehavioralStats, s.to_vector 12 = specEncodingOrder s) ∧
    (∀ s : BehavioralStats, s.rawVector = specEncodingOrder s) ∧
    (∀ s : BehavioralStats,
      s.rawVector.getD 6 0 ≤ 1 ∧ s.rawVector.getD 7 0 ≤ 1 ∧
        s.rawVector.getD 9 0 ≤ 1) ∧
    exStatsBig.rawVector.getD 0 0 = 2 ∧
    exStatsNeg.rawVector.getD 5 0 = -1 := by
  have hraw : ∀ s : BehavioralStats, s.rawVector = specEncodingOrder s := by
    intro s
    simp only [BehavioralStats.rawVector, specEncodingOrder]
    norm_num
  refine ⟨?_, hraw, ?_,
    by norm_num [exStatsBig, BehavioralStats.rawVector, List.getD],
    by norm_num [exStatsNeg, BehavioralStats.rawVector, List.getD]⟩
  · intro s
    rw [to_vector_truncate s 12 (by omega), hraw]
    exact List.take_of_length_le (by simp [specEncodingOrder])
  · intro s
    simp only [BehavioralStats.rawVector, List.getD]
    refine ⟨?_, ?_, ?_⟩ <;>
      simp [min_le_right]

/-- C6: the risk level is High exactly when the score reaches the high
threshold, otherwise Medium exactly when it reaches the medium threshold,
otherwise Low — both thresholds inclusive lower bounds; with thresholds
0.8 and 0.5, a score of 0.79 maps to Medium and 0.80 to High. -/
theorem c6_threshold_levels :
    (∀ (config : RiskConfig) (score : ℚ),
      (RiskLevel.from_score score config = RiskLevel.High ↔
        config.high_threshold ≤ score) ∧
      (RiskLevel.from_score score config = RiskLevel.Medium ↔
        score < config.high_threshold ∧ config.medium_threshold ≤ score) ∧
      (RiskLevel.from_score score config = RiskLevel.Low ↔
        score < config.high_threshold ∧ score < config.medium_threshold)) ∧
    RiskLevel.from_score (79 / 100) ⟨8 / 10, 5 / 10⟩ = RiskLevel.Medium ∧
    RiskLevel.from_score (8 / 10) ⟨8 / 10, 5 / 10⟩ = RiskLevel.High := by
  refine ⟨?_, by norm_num [RiskLevel.from_score], by norm_num [RiskLevel.from_score]⟩
  intro config score
  unfold RiskLevel.from_score
  split_ifs with h1 h2 <;>
    simp_all [ge_iff_le, not_le]

/-- C7: for fixed thresholds (with no assumed ordering between them),
a strictly smaller score never yields a strictly higher risk level under
the ordering Low < Medium < High. -/
theorem c7_risk_monotone (config : RiskConfig) (s1 s2 : ℚ) (h : s1 < s2) :
    (RiskLevel.from_score s1 config).toNat ≤ (RiskLevel.from_score s2 config).toNat := by
  unfold RiskLevel.from_score
  split_ifs <;>
    simp_all [RiskLevel.toNat, ge_iff_le, not_le] <;>
    linarith

/-- Witness for C7 at thresholds 0.8/0.5 and scores 0 < 1. -/
theorem c7_risk_monotone_witness :
    (0 : ℚ) < 1 ∧
    (RiskLevel.from_score 0 ⟨8 / 10, 5 / 10⟩).toNat
      ≤ (RiskLevel.from_score 1 ⟨8 / 10, 5 / 10⟩).toNat :=
  ⟨by norm_num, c7_risk_monotone ⟨8 / 10, 5 / 10⟩ 0 1 (by norm_num)⟩

/-- C8: with no collected events and an empty extractor window, `push`
returns an empty vector list, and `run_one_cycle` completes without
error, leaving the store untouched and producing a risk result with
score 0 and an empty event id. -/
theorem c8_empty_cycle (config : FeaturesConfig) (engine : RiskEngine)
    (detector : OnnxDetector) (serialize : Event → String) (nonces : Nat → List Nat)
    (store : SecureStore) (now : Int) :
    FeatureExtractor.push config [] [] now = ([], []) ∧
    run_one_cycle config engine detector serialize nonces [] store [] now
      = Except.ok ⟨store, [], engine.score "" 0 0⟩ ∧
    (engine.score "" 0 0).score = 0 ∧
    (engine.score "" 0 0).event_id = "" :=
  ⟨rfl, rfl, rfl, rfl⟩

/-- C9 as stated is false: `RiskEngine::score` copies `raw_score` into
the result unchanged, so a raw score of 2 yields a result score of 2,
outside `[0, 1]`. -/
theorem c9_counterexample :
    ¬ (0 ≤ ((RiskEngine.mk ⟨8 / 10, 5 / 10⟩).score "e" 2 0).score ∧
        ((RiskEngine.mk ⟨8 / 10, 5 / 10⟩).score "e" 2 0).score ≤ 1) := by
  norm_num [RiskEngine.score]

/-- C9 amended: `RiskEngine::score` passes `raw_score` through
unchanged, so its result's score is in `[0, 1]` exactly when the given
raw score is; every raw score the orchestrator hands it is — the
detector's `predict` is clamped into `[0, 1]` and the no-vector default
is 0 — so every risk result produced by `run_one_cycle` has its score
in `[0, 1]`. -/
theorem c9_score_in_unit_interval :
    (∀ (engine : RiskEngine) (id : String) (raw : ℚ) (ts : Int),
      (engine.score id raw ts).score = raw) ∧
    (∀ (engine : RiskEngine) (id : String) (raw : ℚ) (ts : Int),
      0 ≤ raw → raw ≤ 1 →
      0 ≤ (engine.score id raw ts).score ∧ (engine.score id raw ts).score ≤ 1) ∧
    (∀ (d : OnnxDetector) (fv : FeatureVector),
      0 ≤ d.predict fv ∧ d.predict fv ≤ 1) ∧
    (∀ (config : FeaturesConfig) (engine : RiskEngine) (detector : OnnxDetector)
      (serialize : Event → String) (nonces : Nat → List Nat)
      (window : List Event) (store : SecureStore) (events : List Event)
      (now : Int) (outcome : CycleOutcome),
      run_one_cycle config engine detector serialize nonces window store events now
        = Except.ok outcome →
      0 ≤ outcome.result.score ∧ outcome.result.score ≤ 1) := by
  refine ⟨fun _ _ _ _ => rfl, fun engine id raw ts h0 h1 => ⟨h0, h1⟩,
    predict_mem_unit, ?_⟩
  intro config engine detector serialize nonces window store events now outcome h
  simp only [run_one_cycle] at h
  cases hfv : (FeatureExtractor.push config window events now).2 with
  | nil =>
      rw [hfv] at h
      simp only [List.head?, Option.map, Option.getD] at h
      rw [Except.ok.injEq] at h
      subst h
      norm_num [RiskEngine.score]
  | cons fv rest =>
      rw [hfv] at h
      simp only [List.head?, Option.map, Option.getD] at h
      rw [Except.ok.injEq] at h
      subst h
      exact predict_mem_unit detector fv

/-- Witness for C9 amended at a concrete in-range raw score. -/
theorem c9_score_in_unit_interval_witness :
    (0 : ℚ) ≤ 1 / 2 ∧ (1 : ℚ) / 2 ≤ 1 ∧
    (0 ≤ ((RiskEngine.mk ⟨8 / 10, 5 / 10⟩).score "e" (1 / 2) 0).score ∧
      ((RiskEngine.mk ⟨8 / 10, 5 / 10⟩).score "e" (1 / 2) 0).score ≤ 1) :=
  ⟨by norm_num, by norm_num,
    c9_score_in_unit_interval.2.1 (RiskEngine.mk ⟨8 / 10, 5 / 10⟩) "e" (1 / 2) 0
      (by norm_num) (by norm_num)⟩

/-- C2 as stated — every blob differing from the authentic one is
rejected — is false: replacing the stored blob by a different, completely
valid authenticated encryption of another plaintext under the same store
key makes `get_event` return that other plaintext instead of an error
(authenticated encryption rejects broken tags, not well-formed
re-encryptions). -/
theorem c2_counterexample :
    exAuthentic.rows
      = [("e1", ⟨5, "proc",
        encrypt (derive_key exSecret) [9, 9, 9] (utf8Encode "hi"), some (1 / 2)⟩)] ∧
    exForgedBlob ≠ encrypt (derive_key exSecret) [9, 9, 9] (utf8Encode "hi") ∧
    exForgedStore.get_event "e1" = Except.ok (some (5, "hacked", some (1 / 2))) :=
  ⟨rfl, by decide, rfl⟩

/-- C2 amended: decryption succeeds only on blobs that are valid
authenticated encryptions under the store's key; any corruption that
breaks the authentication-tag equation — in particular any change
confined to the nonce, the ciphertext or the tag component — makes
`get_event` return an error rather than any plaintext. -/
theorem c2_tamper_rejected :
    (∀ (key : List Nat) (b : EncBlob), b.tag ≠ (key, b.nonce, b.ct) →
      decrypt key b = Except.error "authentication failed") ∧
    (∀ (key : List Nat) (b : EncBlob) (p : List Nat),
      decrypt key b = Except.ok p → b = encrypt key b.nonce p) ∧
    (∀ (s : SecureStore) (id : String) (pr : String × StoredRow),
      s.rows.find? (fun r => r.1 == id) = some pr →
      pr.2.payload_enc.tag ≠ (s.key, pr.2.payload_enc.nonce, pr.2.payload_enc.ct) →
      s.get_event id = Except.error "authentication failed") := by
  refine ⟨?_, ?_, ?_⟩
  · intro key b hb
    unfold decrypt
    rw [if_neg hb]
  · intro key b p h
    unfold decrypt at h
    split_ifs at h with htag
    · rw [Except.ok.injEq] at h
      subst h
      cases b with
      | mk nonce ct tag =>
          simp only at htag
          simp [encrypt, xorStream_xorStream, htag]
  · intro s id pr hfind htag
    obtain ⟨i, row⟩ := pr
    have hd : decrypt s.key row.payload_enc = Except.error "authentication failed" := by
      unfold decrypt
      rw [if_neg htag]
    simp only [SecureStore.get_event, hfind, hd]

/-- Witness for C2 amended: a single-component corruption of the stored
ciphertext is rejected by `get_event`. -/
theorem c2_tamper_rejected_witness :
    exCorruptStore.rows.find? (fun r => r.1 == "e1")
      = some ("e1", ⟨5, "proc", exCorruptBlob, some (1 / 2)⟩) ∧
    exCorruptStore.get_event "e1" = Except.error "authentication failed" :=
  ⟨rfl,
    c2_tamper_rejected.2.2 exCorruptStore "e1"
      ("e1", ⟨5, "proc", exCorruptBlob, some (1 / 2)⟩) rfl (by decide)⟩

/-- C10: when the stored blob decrypts successfully but the plaintext
bytes are not valid UTF-8, `get_event` does not fail — it returns the
row with an empty-string payload
(`String::from_utf8(plain).unwrap_or_default()`). -/
theorem c10_invalid_utf8_empty_payload (key nonce bad : List Nat) (id kind : String)
    (ts : Int) (score : Option ℚ) (h : utf8Decode bad = none) :
    (SecureStore.mk key [(id, ⟨ts, kind, encrypt key nonce bad, score⟩)]).get_event id
      = Except.ok (some (ts, "", score)) := by
  unfold SecureStore.get_event
  simp [List.find?_cons, decrypt_encrypt, h]

/-- Witness for C10 with the non-UTF-8 plaintext byte 255. -/
theorem c10_invalid_utf8_empty_payload_witness :
    utf8Decode [255] = none ∧
    (SecureStore.mk [1, 2, 3]
        [("x", ⟨7, "k", encrypt [1, 2, 3] [9] [255], none⟩)]).get_event "x"
      = Except.ok (some (7, "", none)) :=
  ⟨by decide,
    c10_invalid_utf8_empty_payload [1, 2, 3] [9] [255] "x" "k" 7 none (by decide)⟩
